import Mathlib

/-!
Shallow embedding of the qjlxg/strategy repository: the indicator engine,
the entry predicate and the trade simulator of `backtest_stock_scanner_go.py`,
together with the RSI variants of `stock_scanner_go.py` and
`strategy_c_backtest.py`.

Modelling conventions:
* prices, volumes and turnover rates are exact rationals (`ℚ`);
* a pandas `NaN` cell is `Option.none`; every arithmetic step that would
  produce `NaN` (incomplete rolling window, zero denominator after the
  `replace(0, nan)` guard, `0/0`) yields `none`, and a numpy comparison
  with `NaN`, which evaluates to `False`, is modelled by the `Bool`
  helpers below returning `false` on `none`;
* a daily bar is the tuple of columns the scripts read: 收盘 (close),
  最高 (high), 最低 (low), 成交量 (volume), 换手率 (turnover).
-/

/-- One daily OHLCV bar: the columns of a `stock_data` CSV row that the
indicator engine reads (收盘, 最高, 最低, 成交量, 换手率). -/
structure Bar where
  close : ℚ
  high : ℚ
  low : ℚ
  vol : ℚ
  turnover : ℚ
deriving DecidableEq, Inhabited

/-- The close column at index `i`, `none` past the end of the series. -/
def close? (s : List Bar) (i : ℕ) : Option ℚ :=
  (s[i]?).map Bar.close

/-- The high column at index `i`. -/
def high? (s : List Bar) (i : ℕ) : Option ℚ :=
  (s[i]?).map Bar.high

/-- The low column at index `i`. -/
def low? (s : List Bar) (i : ℕ) : Option ℚ :=
  (s[i]?).map Bar.low

/-- The volume column at index `i`. -/
def vol? (s : List Bar) (i : ℕ) : Option ℚ :=
  (s[i]?).map Bar.vol

/-- The turnover-rate column (换手率) at index `i`. -/
def turnover? (s : List Bar) (i : ℕ) : Option ℚ :=
  (s[i]?).map Bar.turnover

/-- Collect a list of optional values; `none` as soon as one entry is
missing, exactly as a pandas rolling window is `NaN` when any cell of the
window is `NaN`. -/
def allSome : List (Option ℚ) → Option (List ℚ)
  | [] => some []
  | none :: _ => none
  | some v :: rest => (allSome rest).map (v :: ·)

/-- The length-`w` window of `f` ending at index `i` (pandas `rolling(w)`
window for row `i`), as the list `[f (i+1-w), …, f i]`. Meaningful when
`w ≤ i + 1`. -/
def window (f : ℕ → Option ℚ) (w i : ℕ) : List (Option ℚ) :=
  (List.range w).map (fun k => f (i + 1 - w + k))

/-- `rolling(w)` with an aggregation `g` over the completed window:
`none` before the warm-up (`i + 1 < w`) and when any window cell is
`none`, mirroring pandas' default `min_periods = w`. -/
def rollingApply (g : List ℚ → Option ℚ) (w : ℕ) (f : ℕ → Option ℚ) (i : ℕ) :
    Option ℚ :=
  if w ≤ i + 1 then (allSome (window f w i)).bind g else none

/-- `rolling(w).mean()`. -/
def rollingMean (w : ℕ) (f : ℕ → Option ℚ) (i : ℕ) : Option ℚ :=
  rollingApply (fun vs => some (vs.sum / (w : ℚ))) w f i

/-- Minimum of a list of rationals, `none` on the empty list. -/
def olistMin : List ℚ → Option ℚ
  | [] => none
  | x :: xs =>
    match olistMin xs with
    | none => some x
    | some m => some (min x m)

/-- Maximum of a list of rationals, `none` on the empty list. -/
def olistMax : List ℚ → Option ℚ
  | [] => none
  | x :: xs =>
    match olistMax xs with
    | none => some x
    | some m => some (max x m)

/-- `rolling(w).min()`. -/
def rollingMin (w : ℕ) (f : ℕ → Option ℚ) (i : ℕ) : Option ℚ :=
  rollingApply olistMin w f i

/-- `rolling(w).max()`. -/
def rollingMax (w : ℕ) (f : ℕ → Option ℚ) (i : ℕ) : Option ℚ :=
  rollingApply olistMax w f i

/-- The volume at index `i` (total version, default bar out of range). -/
def volD (s : List Bar) (i : ℕ) : ℚ :=
  (s.getD i default).vol

/-- pandas `shift(1)`: the previous row's value, `NaN` at row 0. -/
def shift1 (f : ℕ → Option ℚ) : ℕ → Option ℚ
  | 0 => none
  | i + 1 => f i

/-- `close.diff()` at index `i`: close-to-close delta, `NaN` at row 0 and
past the end. -/
def delta (s : List Bar) : ℕ → Option ℚ
  | 0 => none
  | i + 1 =>
    match close? s (i + 1), close? s i with
    | some c, some p => some (c - p)
    | _, _ => none

/-- `delta.where(delta > 0, 0)`: the positive part of the daily delta.
pandas `where` keeps the delta where the condition holds and writes 0
elsewhere; `NaN > 0` is `False`, so the row-0 `NaN` of `close.diff()`
becomes `0.0` — the gain series carries no `NaN` on existing rows. -/
def gain (s : List Bar) (i : ℕ) : Option ℚ :=
  if i < s.length then
    match delta s i with
    | some d => some (max d 0)
    | none => some 0
  else none

/-- `-delta.where(delta < 0, 0)`: the magnitude of the daily drop. As for
`gain`, `NaN < 0` is `False`, so row 0 holds `-0.0 = 0.0`, not `NaN`. -/
def loss (s : List Bar) (i : ℕ) : Option ℚ :=
  if i < s.length then
    match delta s i with
    | some d => some (max (-d) 0)
    | none => some 0
  else none

/-- One step of `ewm(com=2).mean()` (smoothing factor `1-α = 2/3`,
`adjust=True`): decay the running weighted numerator/denominator and, when
the new observation is present, add it with weight 1. A `NaN` observation
keeps the previous mean (pandas skips it but still decays positionally). -/
def ewmStep (p : ℚ × ℚ) (x : Option ℚ) : ℚ × ℚ :=
  match x with
  | some v => (2/3 * p.1 + v, 2/3 * p.2 + 1)
  | none => (2/3 * p.1, 2/3 * p.2)

/-- Running numerator/denominator of `ewm(com=2).mean()` after row `i`. -/
def ewmState (f : ℕ → Option ℚ) : ℕ → ℚ × ℚ
  | 0 => ewmStep (0, 0) (f 0)
  | i + 1 => ewmStep (ewmState f i) (f (i + 1))

/-- `ewm(com=2).mean()` at row `i`: `NaN` while no observation has been
seen, the weighted mean afterwards. -/
def ewmMean (f : ℕ → Option ℚ) (i : ℕ) : Option ℚ :=
  if (ewmState f i).2 = 0 then none else some ((ewmState f i).1 / (ewmState f i).2)

/-- A series whose bars are genuine OHLC data: the close lies between the
day's low and high. -/
abbrev ValidSeries (s : List Bar) : Prop :=
  ∀ b ∈ s, b.low ≤ b.close ∧ b.close ≤ b.high

namespace Backtest

/-! Constants of `backtest_stock_scanner_go.py` (module header). -/

def MIN_PRICE : ℚ := 5
def MAX_AVG_TURNOVER_30 : ℚ := 2
def minVolumeRatio : ℚ := 1/2
def maxVolumeRatio : ℚ := 6/5
def RSI6_MAX : ℚ := 28
def KDJ_K_MAX : ℚ := 25
def MIN_PROFIT_POTENTIAL : ℚ := 18
def STAND_STILL_THRESHOLD : ℚ := 201/200
def MIN_BIAS_20 : ℚ := -18
def MAX_BIAS_20 : ℚ := -8
def MAX_TODAY_CHANGE : ℚ := 4
def STOP_LOSS : ℚ := -5
def TRAILING_START : ℚ := 10
def HOLD_PERIODS : List ℕ := [3, 5, 10, 20]

/-- `rsi6` of `calculate_indicators` in `backtest_stock_scanner_go.py`:
`100 - 100/(1 + gain/loss.replace(0, nan))` over 6-day rolling means of the
positive/negative delta parts. A zero average loss is replaced by `NaN`
before dividing, so the result is undefined (`none`) there. -/
def rsi6 (s : List Bar) (i : ℕ) : Option ℚ :=
  match rollingMean 6 (gain s) i, rollingMean 6 (loss s) i with
  | some g, some l => if l = 0 then none else some (100 - 100 / (1 + g / l))
  | _, _ => none

/-- The raw stochastic `rsv = (close - low9)/(high9 - low9) * 100` over the
9-day rolling low/high range; `none` before the warm-up and when the range
is degenerate (pandas `0/0 = NaN` on genuine OHLC data). -/
def rsv (s : List Bar) (i : ℕ) : Option ℚ :=
  match close? s i, rollingMin 9 (low? s) i, rollingMax 9 (high? s) i with
  | some c, some lo, some hi =>
    if hi - lo = 0 then none else some ((c - lo) / (hi - lo) * 100)
  | _, _, _ => none

/-- `kdj_k = rsv.ewm(com=2).mean()`. -/
def kdj_k (s : List Bar) (i : ℕ) : Option ℚ :=
  ewmMean (rsv s) i

/-- `close.rolling(w).mean()`: the `ma5`/`ma20`/`ma60` columns. -/
def ma (w : ℕ) (s : List Bar) (i : ℕ) : Option ℚ :=
  rollingMean w (close? s) i

/-- `bias20 = (close - ma20)/ma20 * 100`; undefined while `ma20` is. -/
def bias20 (s : List Bar) (i : ℕ) : Option ℚ :=
  match close? s i, ma 20 s i with
  | some c, some m => if m = 0 then none else some ((c - m) / m * 100)
  | _, _ => none

/-- `avg_turnover_30 = 换手率.rolling(30).mean()`. -/
def avg_turnover_30 (s : List Bar) (i : ℕ) : Option ℚ :=
  rollingMean 30 (turnover? s) i

/-- `vol_ma5 = vol.shift(1).rolling(5).mean()`: the 5-day volume average
over the lagged volume series, excluding the current day's own volume. -/
def vol_ma5 (s : List Bar) (i : ℕ) : Option ℚ :=
  rollingMean 5 (shift1 (vol? s)) i

/-- `vol_ratio = vol / vol_ma5`; undefined while `vol_ma5` is, and on a
zero baseline. -/
def vol_ratio (s : List Bar) (i : ℕ) : Option ℚ :=
  match vol? s i, vol_ma5 s i with
  | some v, some m => if m = 0 then none else some (v / m)
  | _, _ => none

/-- `vol_increase = vol > vol.shift(1)`: a numpy comparison, `False` at
row 0 and whenever a side is `NaN`. -/
def vol_increase (s : List Bar) (i : ℕ) : Bool :=
  match i with
  | 0 => false
  | j + 1 =>
    match vol? s (j + 1), vol? s j with
    | some v, some p => decide (p < v)
    | _, _ => false

/-- `potential = (ma60 - close)/close * 100`, computed per row by
`process_file`. -/
def potential (s : List Bar) (i : ℕ) : Option ℚ :=
  match ma 60 s i, close? s i with
  | some m, some c => if c = 0 then none else some ((m - c) / c * 100)
  | _, _ => none

/-- `change = (close_i - close_(i-1))/close_(i-1) * 100`, computed per row
by `process_file`. -/
def changePct (s : List Bar) (i : ℕ) : Option ℚ :=
  match i with
  | 0 => none
  | j + 1 =>
    match close? s (j + 1), close? s j with
    | some c, some p => if p = 0 then none else some ((c - p) / p * 100)
    | _, _ => none

/-- Numpy `x <= c` on an optional value: `False` when `x` is `NaN`. -/
def oleB (x : Option ℚ) (c : ℚ) : Bool :=
  match x with
  | some v => decide (v ≤ c)
  | none => false

/-- Numpy `x >= c` on an optional value: `False` when `x` is `NaN`. -/
def ogeB (x : Option ℚ) (c : ℚ) : Bool :=
  match x with
  | some v => decide (c ≤ v)
  | none => false

/-- Numpy `lo <= x <= hi` on an optional value: `False` when `x` is `NaN`. -/
def obetweenB (lo : ℚ) (x : Option ℚ) (hi : ℚ) : Bool :=
  match x with
  | some v => decide (lo ≤ v) && decide (v ≤ hi)
  | none => false

/-- `close >= ma5 * STAND_STILL_THRESHOLD` ("站稳" condition), `False`
while `ma5` is undefined. -/
def standStill (s : List Bar) (i : ℕ) : Bool :=
  match close? s i, ma 5 s i with
  | some c, some m => decide (m * STAND_STILL_THRESHOLD ≤ c)
  | _, _ => false

/-- The entry predicate of `process_file` (backtest_stock_scanner_go.py,
lines 101–110): the conjunction of the ten filter conditions in source
order. An undefined indicator fails its comparison. -/
def entrySignal (s : List Bar) (i : ℕ) : Bool :=
  ogeB (close? s i) MIN_PRICE &&
  oleB (avg_turnover_30 s i) MAX_AVG_TURNOVER_30 &&
  oleB (rsi6 s i) RSI6_MAX &&
  oleB (kdj_k s i) KDJ_K_MAX &&
  obetweenB MIN_BIAS_20 (bias20 s i) MAX_BIAS_20 &&
  standStill s i &&
  vol_increase s i &&
  obetweenB minVolumeRatio (vol_ratio s i) maxVolumeRatio &&
  ogeB (potential s i) MIN_PROFIT_POTENTIAL &&
  oleB (changePct s i) MAX_TODAY_CHANGE

/-- The day indices at which `process_file` records a trade: the signal
days inside `range(60, len(df) - 20)`, after the `len(df) < 100` guard. -/
def entryIndices (s : List Bar) : List ℕ :=
  if s.length < 100 then []
  else (List.range' 60 (s.length - 80)).filter (entrySignal s)

/-- The exit reasons of the spec's trade state machine (§4.3).
`simulate_trade` in the source returns only the realized percentage; the
embedding pairs that number with the branch that produced it. -/
inductive ExitReason where
  | stoppedOut
  | trailingStopExit
  | lifeLineExit
  | horizonExpired
deriving DecidableEq

/-- The close at index `i`, reading the default bar out of range (the
simulator only evaluates it in range). -/
def closeD (s : List Bar) (i : ℕ) : ℚ :=
  (s.getD i default).close

/-- The high at index `i` (total version). -/
def highD (s : List Bar) (i : ℕ) : ℚ :=
  (s.getD i default).high

/-- The low at index `i` (total version). -/
def lowD (s : List Bar) (i : ℕ) : ℚ :=
  (s.getD i default).low

/-- `(p - buy_price)/buy_price * 100`: the percentage return of price `p`
over the entry price. -/
def retPct (buy p : ℚ) : ℚ :=
  (p - buy) / buy * 100

/-- The fall-through of `simulate_trade`: sell at
`end_idx = min(start_idx + max_days, len(df) - 1)`. -/
def expiryOutcome (s : List Bar) (start maxDays : ℕ) (buy : ℚ) : ℚ × ExitReason :=
  (retPct buy (closeD s (min (start + maxDays) (s.length - 1))), .horizonExpired)

/-- The daily loop of `simulate_trade` (lines 67–85): `fuel` iterations
remain, `maxp` is the running peak price, `day` the current day offset.
Each day: stop when the bar is off the end of the series; fold the day's
high into the peak; hard stop-loss first; then the trailing stop once the
peak return has reached `TRAILING_START` and the drawback ratio has
reached 0.3, paying the day's return floored at 2.0. -/
def simLoop (s : List Bar) (start maxDays : ℕ) (buy : ℚ) :
    ℕ → ℚ → ℕ → ℚ × ExitReason
  | 0, _, _ => expiryOutcome s start maxDays buy
  | fuel + 1, maxp, day =>
    if s.length ≤ start + day then expiryOutcome s start maxDays buy
    else if retPct buy (lowD s (start + day)) ≤ STOP_LOSS then
      (STOP_LOSS, .stoppedOut)
    else if TRAILING_START ≤ retPct buy (max maxp (highD s (start + day))) ∧
        (3 : ℚ)/10 ≤ (max maxp (highD s (start + day)) - closeD s (start + day)) /
          (max maxp (highD s (start + day)) - buy) then
      (max (retPct buy (closeD s (start + day))) 2, .trailingStopExit)
    else
      simLoop s start maxDays buy fuel (max maxp (highD s (start + day))) (day + 1)

/-- `simulate_trade(df, start_idx, max_days)`: buy at the entry close,
walk days `1..max_days`. -/
def simulate_trade (s : List Bar) (start maxDays : ℕ) : ℚ × ExitReason :=
  simLoop s start maxDays (closeD s start) maxDays (closeD s start) 1

/-- The running peak price after day `d`: the entry close joined with the
highs of days `1..d`, exactly the value `max_price` holds after the loop
body of day `d` has updated it. -/
def peakPrice (s : List Bar) (start : ℕ) (buy : ℚ) : ℕ → ℚ
  | 0 => buy
  | d + 1 => max (peakPrice s start buy d) (highD s (start + d + 1))

/-- The stop-loss test of day `d`: the day's low is down at least 5% from
the entry close. -/
abbrev stopCondition (s : List Bar) (start : ℕ) (buy : ℚ) (d : ℕ) : Prop :=
  retPct buy (lowD s (start + d)) ≤ STOP_LOSS

/-- The trailing-stop test of day `d`: the peak return has reached the
+10% trigger and the drawback ratio has reached 0.3. -/
abbrev trailCondition (s : List Bar) (start : ℕ) (buy : ℚ) (d : ℕ) : Prop :=
  TRAILING_START ≤ retPct buy (peakPrice s start buy d) ∧
  (3 : ℚ)/10 ≤ (peakPrice s start buy d - closeD s (start + d)) /
    (peakPrice s start buy d - buy)

/-- The life-line day and confirmation threshold stated by the spec and by
`debug_scanner`'s printed discipline (day 3, +1%). -/
def LIFE_LINE_DAY : ℕ := 3

def LIFE_LINE_MIN : ℚ := 1

/-- Modelled from the spec: no simulator under the repository's source
implements the life-line exit — `debug_scanner.py` only prints the
"3 days / 1%" discipline — so this variant of the trade loop adds the
spec's life-line check (§4.3 step 3): on day `LIFE_LINE_DAY`, after the
stop-loss check and before the trailing-stop check, exit with the day's
actual close-to-close return when it is below `LIFE_LINE_MIN`. -/
def simLoopLL (s : List Bar) (start maxDays : ℕ) (buy : ℚ) :
    ℕ → ℚ → ℕ → ℚ × ExitReason
  | 0, _, _ => expiryOutcome s start maxDays buy
  | fuel + 1, maxp, day =>
    if s.length ≤ start + day then expiryOutcome s start maxDays buy
    else if retPct buy (lowD s (start + day)) ≤ STOP_LOSS then
      (STOP_LOSS, .stoppedOut)
    else if day = LIFE_LINE_DAY ∧ retPct buy (closeD s (start + day)) < LIFE_LINE_MIN then
      (retPct buy (closeD s (start + day)), .lifeLineExit)
    else if TRAILING_START ≤ retPct buy (max maxp (highD s (start + day))) ∧
        (3 : ℚ)/10 ≤ (max maxp (highD s (start + day)) - closeD s (start + day)) /
          (max maxp (highD s (start + day)) - buy) then
      (max (retPct buy (closeD s (start + day))) 2, .trailingStopExit)
    else
      simLoopLL s start maxDays buy fuel (max maxp (highD s (start + day))) (day + 1)

/-- Modelled from the spec: `simulate_trade` with the life-line check of
§4.3 added (see `simLoopLL`). -/
def simulate_trade_life_line (s : List Bar) (start maxDays : ℕ) : ℚ × ExitReason :=
  simLoopLL s start maxDays (closeD s start) maxDays (closeD s start) 1

end Backtest

namespace Scanner

/-- `rsi6` of `process_single_stock` in `stock_scanner_go.py`
(lines 46–51): same rolling averages, but computed with the explicit guard
`... if last_loss != 0 else 100` — a zero average loss yields the
sentinel 100; an undefined average loss (`NaN != 0` is `True` in Python)
propagates `NaN`. -/
def rsi6 (s : List Bar) (i : ℕ) : Option ℚ :=
  match rollingMean 6 (loss s) i with
  | none => none
  | some l =>
    if l = 0 then some 100
    else (rollingMean 6 (gain s) i).map (fun g => 100 - 100 / (1 + g / l))

end Scanner

namespace StrategyC

/-- `RSI6` of `calculate_indicators` in `strategy_c_backtest.py`
(lines 22–25): `100 - 100/(1 + gain/loss)` with no guard at all. In float
arithmetic a positive gain over a zero loss gives `+inf`, so the result is
`100 - 100/inf = 100`; a zero gain over a zero loss gives `0/0 = NaN`. -/
def RSI6 (s : List Bar) (i : ℕ) : Option ℚ :=
  match rollingMean 6 (gain s) i, rollingMean 6 (loss s) i with
  | some g, some l =>
    if l = 0 then (if g = 0 then none else some 100)
    else some (100 - 100 / (1 + g / l))
  | _, _ => none

end StrategyC

/-- Build a bar from close, high, low, volume, turnover. -/
def mkBar (c h l v t : ℚ) : Bar :=
  ⟨c, h, l, v, t⟩

/-- A flat bar: close = high = low = `c`. -/
def flatBar (c : ℚ) : Bar :=
  mkBar c c c 1 1

/-- Entry close 10, day-1 low 9.40 (−6%): the stop-loss scenario. -/
def seriesC1 : List Bar :=
  [flatBar 10, mkBar (19/2) 10 (47/5) 1 1]

/-- Entry close 10, day-1 high 12 (peak +20%) and close 10.5: drawback
`(12 − 10.5)/(12 − 10) = 0.75 ≥ 0.3`, so the trailing stop fires. -/
def seriesC2 : List Bar :=
  [flatBar 10, mkBar (21/2) 12 10 1 1]

/-- Entry close 10.00, closes 10, 10, 10.05: day-3 return +0.5% is below
the 1% life line. -/
def seriesC3 : List Bar :=
  [flatBar 10, flatBar 10, flatBar 10, flatBar (201/20)]

/-- Three flat bars: no exit condition ever fires. -/
def seriesC4 : List Bar :=
  [flatBar 10, flatBar 10, flatBar 10]

/-- Seven strictly rising closes 1..7: every 6-day average loss is 0 and
every 6-day average gain is 1. -/
def seriesC5 : List Bar :=
  [flatBar 1, flatBar 2, flatBar 3, flatBar 4, flatBar 5, flatBar 6, flatBar 7]

/-- Six bars with volumes 1..6: the lagged 5-day volume average at index 5
is `(1+2+3+4+5)/5 = 3`. -/
def seriesC8 : List Bar :=
  [mkBar 1 1 1 1 1, mkBar 1 1 1 2 1, mkBar 1 1 1 3 1,
   mkBar 1 1 1 4 1, mkBar 1 1 1 5 1, mkBar 1 1 1 6 1]

/-- Alternating closes 10, 11, ..., 10: the 6-day average gain and average
loss at index 6 are both 1/2, so RSI(6) = 50. -/
def seriesC9 : List Bar :=
  [flatBar 10, flatBar 11, flatBar 10, flatBar 11, flatBar 10, flatBar 11,
   flatBar 10]

/-! General lemmas about the windowed-access combinators. -/

theorem allSome_mem_of_mem {L : List (Option ℚ)} {vs : List ℚ}
    (h : allSome L = some vs) : ∀ v ∈ vs, some v ∈ L := by
  induction L generalizing vs with
  | nil =>
    simp only [allSome, Option.some.injEq] at h
    subst h
    intro v hv
    cases hv
  | cons x xs ih =>
    cases x with
    | none => simp [allSome] at h
    | some w =>
      simp only [allSome, Option.map_eq_some'] at h
      obtain ⟨ws, hws, rfl⟩ := h
      intro v hv
      rcases List.mem_cons.mp hv with rfl | hv
      · exact List.mem_cons_self _ _
      · exact List.mem_cons_of_mem _ (ih hws v hv)

theorem allSome_exists_of_mem {L : List (Option ℚ)} {vs : List ℚ}
    (h : allSome L = some vs) : ∀ x ∈ L, ∃ v ∈ vs, x = some v := by
  induction L generalizing vs with
  | nil =>
    intro x hx
    cases hx
  | cons x xs ih =>
    cases x with
    | none => simp [allSome] at h
    | some w =>
      simp only [allSome, Option.map_eq_some'] at h
      obtain ⟨ws, hws, rfl⟩ := h
      intro x hx
      rcases List.mem_cons.mp hx with rfl | hx
      · exact ⟨w, List.mem_cons_self _ _, rfl⟩
      · obtain ⟨v, hv, rfl⟩ := ih hws x hx
        exact ⟨v, List.mem_cons_of_mem _ hv, rfl⟩

theorem self_mem_window {f : ℕ → Option ℚ} {w i : ℕ} (hw1 : 1 ≤ w)
    (hw : w ≤ i + 1) : f i ∈ window f w i := by
  unfold window
  refine List.mem_map.mpr ⟨w - 1, List.mem_range.mpr (by omega), ?_⟩
  congr 1
  omega

theorem exists_index_of_mem_window {f : ℕ → Option ℚ} {w i : ℕ}
    {x : Option ℚ} (hw : w ≤ i + 1) (hx : x ∈ window f w i) :
    ∃ j, j ≤ i ∧ x = f j := by
  unfold window at hx
  obtain ⟨k, hk, rfl⟩ := List.mem_map.mp hx
  have hk' := List.mem_range.mp hk
  exact ⟨i + 1 - w + k, by omega, rfl⟩

theorem window_congr {f g : ℕ → Option ℚ} {w i : ℕ} (hw : w ≤ i + 1)
    (h : ∀ j, j ≤ i → f j = g j) : window f w i = window g w i := by
  unfold window
  refine List.map_congr_left ?_
  intro k hk
  have hk' := List.mem_range.mp hk
  exact h _ (by omega)

theorem rollingApply_congr (g : List ℚ → Option ℚ) (w i : ℕ)
    {f1 f2 : ℕ → Option ℚ} (h : ∀ j, j ≤ i → f1 j = f2 j) :
    rollingApply g w f1 i = rollingApply g w f2 i := by
  unfold rollingApply
  by_cases hw : w ≤ i + 1
  · rw [if_pos hw, if_pos hw, window_congr hw h]
  · rw [if_neg hw, if_neg hw]

theorem ewmState_congr {f1 f2 : ℕ → Option ℚ} :
    ∀ i, (∀ j, j ≤ i → f1 j = f2 j) → ewmState f1 i = ewmState f2 i := by
  intro i
  induction i with
  | zero =>
    intro h
    simp [ewmState, h 0 le_rfl]
  | succ n ih =>
    intro h
    simp only [ewmState]
    rw [h (n + 1) le_rfl, ih (fun j hj => h j (by omega))]

theorem ewmMean_congr {f1 f2 : ℕ → Option ℚ} (i : ℕ)
    (h : ∀ j, j ≤ i → f1 j = f2 j) : ewmMean f1 i = ewmMean f2 i := by
  unfold ewmMean
  rw [ewmState_congr i h]

theorem rollingMean_nonneg {w i : ℕ} {f : ℕ → Option ℚ} {m : ℚ}
    (hf : ∀ j v, f j = some v → 0 ≤ v) (h : rollingMean w f i = some m) :
    0 ≤ m := by
  unfold rollingMean rollingApply at h
  by_cases hw : w ≤ i + 1
  · rw [if_pos hw] at h
    cases hall : allSome (window f w i) with
    | none => rw [hall] at h; cases h
    | some vs =>
      rw [hall] at h
      simp only [Option.some_bind, Option.some.injEq] at h
      subst h
      have hsum : 0 ≤ vs.sum := by
        refine List.sum_nonneg ?_
        intro v hv
        obtain ⟨j, hj, hx⟩ :=
          exists_index_of_mem_window hw (allSome_mem_of_mem hall v hv)
        exact hf j v hx.symm
      exact div_nonneg hsum (by positivity)
  · rw [if_neg hw] at h; cases h

theorem olistMin_eq_none {xs : List ℚ} (h : olistMin xs = none) : xs = [] := by
  cases xs with
  | nil => rfl
  | cons x xs =>
    exfalso
    cases hxs : olistMin xs <;> simp [olistMin, hxs] at h

theorem olistMin_le {xs : List ℚ} {m : ℚ} :
    ∀ {v : ℚ}, olistMin xs = some m → v ∈ xs → m ≤ v := by
  induction xs generalizing m with
  | nil =>
    intro v h hv
    cases hv
  | cons x xs ih =>
    intro v h hv
    cases hxs : olistMin xs with
    | none =>
      have hnil := olistMin_eq_none hxs
      subst hnil
      simp only [olistMin, Option.some.injEq] at h
      subst h
      rcases List.mem_cons.mp hv with rfl | hv
      · exact le_rfl
      · cases hv
    | some mm =>
      rw [olistMin, hxs] at h
      simp only [Option.some.injEq] at h
      subst h
      rcases List.mem_cons.mp hv with rfl | hv
      · exact min_le_left _ _
      · exact le_trans (min_le_right _ _) (ih hxs hv)

theorem olistMax_eq_none {xs : List ℚ} (h : olistMax xs = none) : xs = [] := by
  cases xs with
  | nil => rfl
  | cons x xs =>
    exfalso
    cases hxs : olistMax xs <;> simp [olistMax, hxs] at h

theorem olistMax_ge {xs : List ℚ} {m : ℚ} :
    ∀ {v : ℚ}, olistMax xs = some m → v ∈ xs → v ≤ m := by
  induction xs generalizing m with
  | nil =>
    intro v h hv
    cases hv
  | cons x xs ih =>
    intro v h hv
    cases hxs : olistMax xs with
    | none =>
      have hnil := olistMax_eq_none hxs
      subst hnil
      simp only [olistMax, Option.some.injEq] at h
      subst h
      rcases List.mem_cons.mp hv with rfl | hv
      · exact le_rfl
      · cases hv
    | some mm =>
      rw [olistMax, hxs] at h
      simp only [Option.some.injEq] at h
      subst h
      rcases List.mem_cons.mp hv with rfl | hv
      · exact le_max_left _ _
      · exact le_trans (ih hxs hv) (le_max_right _ _)

theorem rollingMin_le_at {w i : ℕ} {f : ℕ → Option ℚ} {m v : ℚ}
    (hw1 : 1 ≤ w) (h : rollingMin w f i = some m) (hv : f i = some v) :
    m ≤ v := by
  unfold rollingMin rollingApply at h
  by_cases hw : w ≤ i + 1
  · rw [if_pos hw] at h
    cases hall : allSome (window f w i) with
    | none => rw [hall] at h; cases h
    | some vs =>
      rw [hall] at h
      simp only [Option.some_bind] at h
      have hmem : f i ∈ window f w i := self_mem_window hw1 hw
      rw [hv] at hmem
      obtain ⟨v', hv', hvv⟩ := allSome_exists_of_mem hall _ hmem
      obtain rfl : v = v' := by injection hvv
      exact olistMin_le h hv'
  · rw [if_neg hw] at h; cases h

theorem rollingMax_ge_at {w i : ℕ} {f : ℕ → Option ℚ} {m v : ℚ}
    (hw1 : 1 ≤ w) (h : rollingMax w f i = some m) (hv : f i = some v) :
    v ≤ m := by
  unfold rollingMax rollingApply at h
  by_cases hw : w ≤ i + 1
  · rw [if_pos hw] at h
    cases hall : allSome (window f w i) with
    | none => rw [hall] at h; cases h
    | some vs =>
      rw [hall] at h
      simp only [Option.some_bind] at h
      have hmem : f i ∈ window f w i := self_mem_window hw1 hw
      rw [hv] at hmem
      obtain ⟨v', hv', hvv⟩ := allSome_exists_of_mem hall _ hmem
      obtain rfl : v = v' := by injection hvv
      exact olistMax_ge h hv'
  · rw [if_neg hw] at h; cases h

/-! Bounds for the exponentially weighted mean and the RSI formula. -/

theorem ewmState_den_nonneg (f : ℕ → Option ℚ) : ∀ i, 0 ≤ (ewmState f i).2 := by
  intro i
  induction i with
  | zero =>
    cases h : f 0 <;> simp [ewmState, ewmStep, h]
  | succ n ih =>
    cases h : f (n + 1) <;> simp only [ewmState, ewmStep, h] <;> nlinarith

theorem ewmState_num_bounds {f : ℕ → Option ℚ}
    (hf : ∀ j v, f j = some v → 0 ≤ v ∧ v ≤ 100) :
    ∀ i, 0 ≤ (ewmState f i).1 ∧ (ewmState f i).1 ≤ 100 * (ewmState f i).2 := by
  intro i
  induction i with
  | zero =>
    cases h : f 0 with
    | none => simp [ewmState, ewmStep, h]
    | some v =>
      obtain ⟨h0, h100⟩ := hf 0 v h
      simp only [ewmState, ewmStep, h]
      constructor <;> [positivity; nlinarith]
  | succ n ih =>
    have hden := ewmState_den_nonneg f n
    obtain ⟨ih0, ih100⟩ := ih
    cases h : f (n + 1) with
    | none =>
      simp only [ewmState, ewmStep, h]
      constructor <;> nlinarith
    | some v =>
      obtain ⟨h0, h100⟩ := hf (n + 1) v h
      simp only [ewmState, ewmStep, h]
      constructor <;> nlinarith

theorem ewmMean_bounds {f : ℕ → Option ℚ} {i : ℕ} {q : ℚ}
    (hf : ∀ j v, f j = some v → 0 ≤ v ∧ v ≤ 100) (h : ewmMean f i = some q) :
    0 ≤ q ∧ q ≤ 100 := by
  unfold ewmMean at h
  by_cases hz : (ewmState f i).2 = 0
  · rw [if_pos hz] at h; cases h
  · rw [if_neg hz] at h
    simp only [Option.some.injEq] at h
    subst h
    have hden : 0 < (ewmState f i).2 :=
      lt_of_le_of_ne (ewmState_den_nonneg f i) (Ne.symm hz)
    obtain ⟨h0, h100⟩ := ewmState_num_bounds hf i
    constructor
    · exact div_nonneg h0 (le_of_lt hden)
    · rw [div_le_iff₀ hden]
      linarith

theorem rsi_formula_bounds {g l : ℚ} (hg : 0 ≤ g) (hl : 0 ≤ l) (hl0 : l ≠ 0) :
    0 ≤ 100 - 100 / (1 + g / l) ∧ 100 - 100 / (1 + g / l) ≤ 100 := by
  have hlpos : 0 < l := lt_of_le_of_ne hl (Ne.symm hl0)
  have hgl : 0 ≤ g / l := div_nonneg hg hl
  have hpos : (0 : ℚ) < 1 + g / l := by linarith
  constructor
  · have hle : 100 / (1 + g / l) ≤ 100 := by
      rw [div_le_iff₀ hpos]
      nlinarith
    linarith
  · have hge : 0 ≤ 100 / (1 + g / l) := by positivity
    linarith

/-! Sign facts about the daily gain/loss series. -/

theorem gain_nonneg {s : List Bar} {i : ℕ} {v : ℚ} (h : gain s i = some v) :
    0 ≤ v := by
  unfold gain at h
  by_cases hi : i < s.length
  · rw [if_pos hi] at h
    cases hd : delta s i with
    | none =>
      rw [hd] at h
      simp only [Option.some.injEq] at h
      subst h
      exact le_rfl
    | some d =>
      rw [hd] at h
      simp only [Option.some.injEq] at h
      subst h
      exact le_max_right d 0
  · rw [if_neg hi] at h
    cases h

theorem loss_nonneg {s : List Bar} {i : ℕ} {v : ℚ} (h : loss s i = some v) :
    0 ≤ v := by
  unfold loss at h
  by_cases hi : i < s.length
  · rw [if_pos hi] at h
    cases hd : delta s i with
    | none =>
      rw [hd] at h
      simp only [Option.some.injEq] at h
      subst h
      exact le_rfl
    | some d =>
      rw [hd] at h
      simp only [Option.some.injEq] at h
      subst h
      exact le_max_right (-d) 0
  · rw [if_neg hi] at h
    cases h

/-! Bridging lemmas between the optional accessors and the total ones. -/

theorem getD_eq_of_getElem? {s : List Bar} {k : ℕ} {b : Bar}
    (h : s[k]? = some b) : s.getD k default = b := by
  rw [List.getD_eq_getElem?_getD, h]
  rfl

theorem close?_eq_some {s : List Bar} {k : ℕ} {b : Bar}
    (h : s[k]? = some b) : close? s k = some b.close := by
  rw [close?, h]
  rfl

theorem low?_eq_some {s : List Bar} {k : ℕ} {b : Bar}
    (h : s[k]? = some b) : low? s k = some b.low := by
  rw [low?, h]
  rfl

theorem high?_eq_some {s : List Bar} {k : ℕ} {b : Bar}
    (h : s[k]? = some b) : high? s k = some b.high := by
  rw [high?, h]
  rfl

theorem vol?_eq_volD {s : List Bar} {k : ℕ} (h : k < s.length) :
    vol? s k = some (volD s k) := by
  have hk : s[k]? = some s[k] := List.getElem?_eq_getElem h
  rw [vol?, hk, volD, getD_eq_of_getElem? hk]
  rfl

/-! The raw stochastic value lies in [0, 100] on genuine OHLC data. -/

theorem rsv_bounds {s : List Bar} (hs : ValidSeries s) :
    ∀ j v, Backtest.rsv s j = some v → 0 ≤ v ∧ v ≤ 100 := by
  intro j v h
  unfold Backtest.rsv at h
  cases hb : s[j]? with
  | none =>
    rw [show close? s j = none by rw [close?, hb]; rfl] at h
    cases h
  | some b =>
    rw [close?_eq_some hb] at h
    cases hlo : rollingMin 9 (low? s) j with
    | none => rw [hlo] at h; cases h
    | some lo =>
      cases hhi : rollingMax 9 (high? s) j with
      | none => rw [hlo, hhi] at h; cases h
      | some hi =>
        rw [hlo, hhi] at h
        replace h : (if hi - lo = 0 then none
            else some ((b.close - lo) / (hi - lo) * 100)) = some v := h
        by_cases hz : hi - lo = 0
        · rw [if_pos hz] at h; cases h
        · rw [if_neg hz] at h
          simp only [Option.some.injEq] at h
          subst h
          have hmem : b ∈ s := List.getElem?_mem hb
          obtain ⟨hvb1, hvb2⟩ := hs b hmem
          have h1 : lo ≤ b.low := rollingMin_le_at (by norm_num) hlo (low?_eq_some hb)
          have h2 : b.high ≤ hi := rollingMax_ge_at (by norm_num) hhi (high?_eq_some hb)
          have hlc : lo ≤ b.close := le_trans h1 hvb1
          have hch : b.close ≤ hi := le_trans hvb2 h2
          have hlh : lo < hi := lt_of_le_of_ne (le_trans hlc hch) (fun he => hz (by rw [he]; ring))
          have hden : (0 : ℚ) < hi - lo := by linarith
          constructor
          · have : 0 ≤ (b.close - lo) / (hi - lo) := div_nonneg (by linarith) (le_of_lt hden)
            nlinarith
          · have : (b.close - lo) / (hi - lo) ≤ 1 := by
              rw [div_le_one hden]
              linarith
            nlinarith

/-! Truncation lemmas: every indicator at index `i` reads only rows
`0..i`, so it is unchanged on the prefix `s.take (i+1)`. -/

theorem getElem?_take_le {s : List Bar} {i j : ℕ} (h : j ≤ i) :
    (s.take (i + 1))[j]? = s[j]? :=
  List.getElem?_take_of_lt (by omega)

theorem close?_take {s : List Bar} {i j : ℕ} (h : j ≤ i) :
    close? (s.take (i + 1)) j = close? s j := by
  unfold close?
  rw [getElem?_take_le h]

theorem high?_take {s : List Bar} {i j : ℕ} (h : j ≤ i) :
    high? (s.take (i + 1)) j = high? s j := by
  unfold high?
  rw [getElem?_take_le h]

theorem low?_take {s : List Bar} {i j : ℕ} (h : j ≤ i) :
    low? (s.take (i + 1)) j = low? s j := by
  unfold low?
  rw [getElem?_take_le h]

theorem vol?_take {s : List Bar} {i j : ℕ} (h : j ≤ i) :
    vol? (s.take (i + 1)) j = vol? s j := by
  unfold vol?
  rw [getElem?_take_le h]

theorem turnover?_take {s : List Bar} {i j : ℕ} (h : j ≤ i) :
    turnover? (s.take (i + 1)) j = turnover? s j := by
  unfold turnover?
  rw [getElem?_take_le h]

theorem delta_take {s : List Bar} {i j : ℕ} (h : j ≤ i) :
    delta (s.take (i + 1)) j = delta s j := by
  cases j with
  | zero => rfl
  | succ k =>
    simp only [delta]
    rw [close?_take (show k + 1 ≤ i from h), close?_take (show k ≤ i by omega)]

theorem gain_take {s : List Bar} {i j : ℕ} (h : j ≤ i) :
    gain (s.take (i + 1)) j = gain s j := by
  unfold gain
  rw [delta_take h, List.length_take]
  by_cases hj : j < s.length
  · rw [if_pos (by omega), if_pos hj]
  · rw [if_neg (by omega), if_neg hj]

theorem loss_take {s : List Bar} {i j : ℕ} (h : j ≤ i) :
    loss (s.take (i + 1)) j = loss s j := by
  unfold loss
  rw [delta_take h, List.length_take]
  by_cases hj : j < s.length
  · rw [if_pos (by omega), if_pos hj]
  · rw [if_neg (by omega), if_neg hj]

theorem shift1_vol_take {s : List Bar} {i j : ℕ} (h : j ≤ i) :
    shift1 (vol? (s.take (i + 1))) j = shift1 (vol? s) j := by
  cases j with
  | zero => rfl
  | succ k =>
    unfold shift1
    exact vol?_take (by omega)

namespace Backtest

theorem rsi6_take (s : List Bar) (i : ℕ) :
    rsi6 (s.take (i + 1)) i = rsi6 s i := by
  unfold rsi6 rollingMean
  rw [rollingApply_congr _ 6 i (fun j hj => gain_take hj),
    rollingApply_congr _ 6 i (fun j hj => loss_take hj)]

theorem rsv_take {s : List Bar} {i j : ℕ} (h : j ≤ i) :
    rsv (s.take (i + 1)) j = rsv s j := by
  unfold rsv rollingMin rollingMax
  rw [close?_take h,
    rollingApply_congr _ 9 j (fun m hm => low?_take (le_trans hm h)),
    rollingApply_congr _ 9 j (fun m hm => high?_take (le_trans hm h))]

theorem kdj_k_take (s : List Bar) (i : ℕ) :
    kdj_k (s.take (i + 1)) i = kdj_k s i := by
  unfold kdj_k
  exact ewmMean_congr i (fun j hj => rsv_take hj)

theorem ma_take (w : ℕ) (s : List Bar) (i : ℕ) :
    ma w (s.take (i + 1)) i = ma w s i := by
  unfold ma rollingMean
  rw [rollingApply_congr _ w i (fun j hj => close?_take hj)]

theorem bias20_take (s : List Bar) (i : ℕ) :
    bias20 (s.take (i + 1)) i = bias20 s i := by
  unfold bias20
  rw [close?_take (le_refl i), ma_take 20 s i]

theorem avg_turnover_30_take (s : List Bar) (i : ℕ) :
    avg_turnover_30 (s.take (i + 1)) i = avg_turnover_30 s i := by
  unfold avg_turnover_30 rollingMean
  rw [rollingApply_congr _ 30 i (fun j hj => turnover?_take hj)]

theorem vol_ma5_take (s : List Bar) (i : ℕ) :
    vol_ma5 (s.take (i + 1)) i = vol_ma5 s i := by
  unfold vol_ma5 rollingMean
  rw [rollingApply_congr _ 5 i (fun j hj => shift1_vol_take hj)]

theorem vol_ratio_take (s : List Bar) (i : ℕ) :
    vol_ratio (s.take (i + 1)) i = vol_ratio s i := by
  unfold vol_ratio
  rw [vol?_take (le_refl i), vol_ma5_take s i]

end Backtest

namespace Backtest

/-! Loop invariants of `simulate_trade`: the running `max_price` equals
`peakPrice` of the previous day, and the three exit outcomes are
characterised. -/

theorem peak_succ (s : List Bar) (start : ℕ) (buy : ℚ) (d : ℕ) :
    max (peakPrice s start buy d) (highD s (start + (d + 1))) =
      peakPrice s start buy (d + 1) := by
  simp only [peakPrice]
  rw [show start + (d + 1) = start + d + 1 by omega]

theorem simLoop_stop_spec (s : List Bar) (start maxDays : ℕ) (buy : ℚ) (d : ℕ)
    (hdm : d ≤ maxDays) (hlen : start + d < s.length)
    (hstop : stopCondition s start buy d) :
    ∀ fuel day, 1 ≤ day → day ≤ d → day + fuel = maxDays + 1 →
    (∀ e, day ≤ e → e < d →
      ¬ stopCondition s start buy e ∧ ¬ trailCondition s start buy e) →
    simLoop s start maxDays buy fuel (peakPrice s start buy (day - 1)) day =
      (STOP_LOSS, .stoppedOut) := by
  intro fuel
  induction fuel with
  | zero =>
    intro day h1 h2 h3 hpr
    omega
  | succ fuel ih =>
    intro day h1 h2 h3 hpr
    obtain ⟨day', rfl⟩ : ∃ day', day = day' + 1 := ⟨day - 1, by omega⟩
    simp only [simLoop, Nat.add_sub_cancel]
    rw [if_neg (by omega : ¬ s.length ≤ start + (day' + 1))]
    by_cases hd : day' + 1 = d
    · subst hd
      rw [if_pos hstop]
    · obtain ⟨hns, hnt⟩ := hpr (day' + 1) le_rfl (by omega)
      rw [if_neg hns, peak_succ, if_neg hnt]
      have hrec := ih (day' + 1 + 1) (by omega) (by omega) (by omega)
        (fun e he1 he2 => hpr e (by omega) he2)
      simpa using hrec

theorem simLoop_trailing_spec (s : List Bar) (start maxDays : ℕ) (buy : ℚ) :
    ∀ fuel day (v : ℚ), 1 ≤ day → day + fuel = maxDays + 1 →
    simLoop s start maxDays buy fuel (peakPrice s start buy (day - 1)) day =
      (v, .trailingStopExit) →
    ∃ d, day ≤ d ∧ d ≤ maxDays ∧ start + d < s.length ∧
      ¬ stopCondition s start buy d ∧ trailCondition s start buy d ∧
      v = max (retPct buy (closeD s (start + d))) 2 := by
  intro fuel
  induction fuel with
  | zero =>
    intro day v h1 h3 h
    exact absurd (congrArg Prod.snd h) (by simp [simLoop, expiryOutcome])
  | succ fuel ih =>
    intro day v h1 h3 h
    obtain ⟨day', rfl⟩ : ∃ day', day = day' + 1 := ⟨day - 1, by omega⟩
    simp only [simLoop, Nat.add_sub_cancel] at h
    by_cases hend : s.length ≤ start + (day' + 1)
    · rw [if_pos hend] at h
      exact absurd (congrArg Prod.snd h) (by simp [expiryOutcome])
    · rw [if_neg hend] at h
      by_cases hstop : stopCondition s start buy (day' + 1)
      · rw [if_pos hstop] at h
        exact absurd (congrArg Prod.snd h) (by simp)
      · rw [if_neg hstop, peak_succ] at h
        by_cases htr : trailCondition s start buy (day' + 1)
        · rw [if_pos htr] at h
          refine ⟨day' + 1, le_rfl, by omega, by omega, hstop, htr, ?_⟩
          have := congrArg Prod.fst h
          simpa using this.symm
        · rw [if_neg htr] at h
          obtain ⟨d, hd1, hd2, hd3, hd4, hd5, hd6⟩ :=
            ih (day' + 1 + 1) v (by omega) (by omega) (by simpa using h)
          exact ⟨d, by omega, hd2, hd3, hd4, hd5, hd6⟩

theorem simLoop_expiry_spec (s : List Bar) (start maxDays : ℕ) (buy : ℚ)
    (hq : ∀ e, 1 ≤ e → e ≤ maxDays → start + e < s.length →
      ¬ stopCondition s start buy e ∧ ¬ trailCondition s start buy e) :
    ∀ fuel day, 1 ≤ day → day + fuel = maxDays + 1 →
    simLoop s start maxDays buy fuel (peakPrice s start buy (day - 1)) day =
      expiryOutcome s start maxDays buy := by
  intro fuel
  induction fuel with
  | zero =>
    intro day h1 h3
    simp [simLoop]
  | succ fuel ih =>
    intro day h1 h3
    obtain ⟨day', rfl⟩ : ∃ day', day = day' + 1 := ⟨day - 1, by omega⟩
    simp only [simLoop, Nat.add_sub_cancel]
    by_cases hend : s.length ≤ start + (day' + 1)
    · rw [if_pos hend]
    · rw [if_neg hend]
      obtain ⟨hns, hnt⟩ := hq (day' + 1) (by omega) (by omega) (by omega)
      rw [if_neg hns, peak_succ, if_neg hnt]
      have hrec := ih (day' + 1 + 1) (by omega) (by omega)
      simpa using hrec

end Backtest

namespace Backtest

theorem simLoopLL_life_spec (s : List Bar) (start maxDays : ℕ) (buy : ℚ)
    (hm3 : 3 ≤ maxDays) (hlen : start + 3 < s.length)
    (hstop : ∀ e, 1 ≤ e → e ≤ 3 → ¬ stopCondition s start buy e)
    (htrail : ∀ e, 1 ≤ e → e ≤ 2 → ¬ trailCondition s start buy e)
    (hll : retPct buy (closeD s (start + 3)) < LIFE_LINE_MIN) :
    ∀ fuel day, 1 ≤ day → day ≤ 3 → day + fuel = maxDays + 1 →
    simLoopLL s start maxDays buy fuel (peakPrice s start buy (day - 1)) day =
      (retPct buy (closeD s (start + 3)), .lifeLineExit) := by
  intro fuel
  induction fuel with
  | zero =>
    intro day h1 h2 h3
    omega
  | succ fuel ih =>
    intro day h1 h2 h3
    obtain ⟨day', rfl⟩ : ∃ day', day = day' + 1 := ⟨day - 1, by omega⟩
    simp only [simLoopLL, Nat.add_sub_cancel]
    rw [if_neg (by omega : ¬ s.length ≤ start + (day' + 1))]
    rw [if_neg (hstop (day' + 1) (by omega) (by omega))]
    by_cases hd : day' + 1 = 3
    · obtain rfl : day' = 2 := by omega
      rw [if_pos (⟨rfl, hll⟩ :
        (2 : ℕ) + 1 = LIFE_LINE_DAY ∧
          retPct buy (closeD s (start + (2 + 1))) < LIFE_LINE_MIN)]
    · rw [if_neg (fun hc => hd (by simpa [LIFE_LINE_DAY] using hc.1))]
      rw [peak_succ, if_neg (htrail (day' + 1) (by omega) (by omega))]
      have hrec := ih (day' + 1 + 1) (by omega) (by omega) (by omega)
      simpa using hrec

end Backtest

open Backtest

/-- C1: for every price series, entry index and horizon, if on some day
`d` in `1..horizon` (with the bar `entry + d` present) the day's low is
down at least 5% from the entry close, and neither the stop-loss nor the
trailing-stop fired on any earlier day, then `simulate_trade` exits
stopped-out with realized return exactly `STOP_LOSS = -5.0`, however far
below the threshold the low fell; the stop-loss branch is tested before
the trailing-stop branch of the same day, so no condition on the
trailing stop at day `d` is needed. -/
theorem C1_stop_loss_priority (s : List Bar) (start maxDays d : ℕ)
    (h1 : 1 ≤ d) (h2 : d ≤ maxDays) (hlen : start + d < s.length)
    (hstop : stopCondition s start (closeD s start) d)
    (hprior : ∀ e, 1 ≤ e → e < d →
      ¬ stopCondition s start (closeD s start) e ∧
      ¬ trailCondition s start (closeD s start) e) :
    simulate_trade s start maxDays = (STOP_LOSS, ExitReason.stoppedOut) := by
  have h := simLoop_stop_spec s start maxDays (closeD s start) d h2 hlen hstop
    maxDays 1 le_rfl h1 (by omega) (fun e he1 he2 => hprior e he1 he2)
  simpa [simulate_trade, peakPrice] using h

/-- Witness for C1: entry close 10, day-1 low 9.40 (−6%). -/
theorem C1_stop_loss_priority_witness :
    stopCondition seriesC1 0 (closeD seriesC1 0) 1 ∧
    simulate_trade seriesC1 0 5 = (STOP_LOSS, ExitReason.stoppedOut) := by
  have hs : stopCondition seriesC1 0 (closeD seriesC1 0) 1 := by
    norm_num [stopCondition, retPct, lowD, closeD, seriesC1, flatBar, mkBar,
      STOP_LOSS, List.getD_cons_zero, List.getD_cons_succ]
  refine ⟨hs, ?_⟩
  exact C1_stop_loss_priority seriesC1 0 5 1 le_rfl (by norm_num)
    (by norm_num [seriesC1]) hs (fun e he1 he2 => by omega)

/-- C2: a trailing-stop exit of `simulate_trade` can only happen on a day
whose running peak price (the maximum of the entry close and the daily
highs so far) is up at least `TRAILING_START = 10`% over the entry close
and whose drawback ratio `(peak - close)/(peak - entry)` has reached 0.3,
and its realized return is the larger of the day's actual return and the
2.0 profit floor. In particular the trailing stop never fires before the
peak return has reached the trigger percentage. -/
theorem C2_trailing_stop_necessity (s : List Bar) (start maxDays : ℕ) (v : ℚ)
    (h : simulate_trade s start maxDays = (v, ExitReason.trailingStopExit)) :
    ∃ d, 1 ≤ d ∧ d ≤ maxDays ∧ start + d < s.length ∧
      TRAILING_START ≤ retPct (closeD s start) (peakPrice s start (closeD s start) d) ∧
      (3 : ℚ)/10 ≤ (peakPrice s start (closeD s start) d - closeD s (start + d)) /
        (peakPrice s start (closeD s start) d - closeD s start) ∧
      v = max (retPct (closeD s start) (closeD s (start + d))) 2 := by
  obtain ⟨d, hd1, hd2, hd3, _, htr, hv⟩ :=
    simLoop_trailing_spec s start maxDays (closeD s start) maxDays 1 v le_rfl
      (by omega) (by simpa [simulate_trade, peakPrice] using h)
  exact ⟨d, hd1, hd2, hd3, htr.1, htr.2, hv⟩

/-- Witness for C2: entry close 10, day-1 high 12 (peak +20%), close 10.5
(drawback 0.75): the trade exits trailing-stop with return
`max (5, 2) = 5`. -/
theorem C2_trailing_stop_necessity_witness :
    simulate_trade seriesC2 0 5 = (5, ExitReason.trailingStopExit) ∧
    ∃ d, 1 ≤ d ∧ d ≤ 5 ∧ 0 + d < seriesC2.length ∧
      TRAILING_START ≤ retPct (closeD seriesC2 0) (peakPrice seriesC2 0 (closeD seriesC2 0) d) ∧
      (3 : ℚ)/10 ≤ (peakPrice seriesC2 0 (closeD seriesC2 0) d - closeD seriesC2 (0 + d)) /
        (peakPrice seriesC2 0 (closeD seriesC2 0) d - closeD seriesC2 0) ∧
      (5 : ℚ) = max (retPct (closeD seriesC2 0) (closeD seriesC2 (0 + d))) 2 := by
  have hsim : simulate_trade seriesC2 0 5 = (5, ExitReason.trailingStopExit) := by
    norm_num [simulate_trade, simLoop, expiryOutcome, retPct, closeD, highD, lowD,
      STOP_LOSS, TRAILING_START, seriesC2, flatBar, mkBar,
      List.getD_cons_zero, List.getD_cons_succ]
  exact ⟨hsim, C2_trailing_stop_necessity seriesC2 0 5 5 hsim⟩

/-- C3 (modelled from the spec, see `simLoopLL`): in the life-line
variant of the trade simulator, if the cumulative close-to-close return
at day 3 is below the +1% confirmation threshold and no stop-loss or
trailing-stop exit happened first, the trade exits `lifeLineExit` with
the day-3 actual return, discarding the remaining horizon. -/
theorem C3_life_line_exit (s : List Bar) (start maxDays : ℕ)
    (hm : 3 ≤ maxDays) (hlen : start + 3 < s.length)
    (hstop : ∀ e, 1 ≤ e → e ≤ 3 → ¬ stopCondition s start (closeD s start) e)
    (htrail : ∀ e, 1 ≤ e → e ≤ 2 → ¬ trailCondition s start (closeD s start) e)
    (hll : retPct (closeD s start) (closeD s (start + 3)) < LIFE_LINE_MIN) :
    simulate_trade_life_line s start maxDays =
      (retPct (closeD s start) (closeD s (start + 3)), ExitReason.lifeLineExit) := by
  have h := simLoopLL_life_spec s start maxDays (closeD s start) hm hlen hstop htrail hll
    maxDays 1 le_rfl (by omega) (by omega)
  simpa [simulate_trade_life_line, peakPrice] using h

/-- Witness for C3, the spec's concrete scenario: entry 10.00, day-3
close 10.05 (+0.5%), horizon 10: the exit is the life line with
return 0.5. -/
theorem C3_life_line_exit_witness :
    retPct (closeD seriesC3 0) (closeD seriesC3 (0 + 3)) < LIFE_LINE_MIN ∧
    simulate_trade_life_line seriesC3 0 10 = (1/2, ExitReason.lifeLineExit) := by
  have hll : retPct (closeD seriesC3 0) (closeD seriesC3 (0 + 3)) < LIFE_LINE_MIN := by
    norm_num [retPct, closeD, seriesC3, flatBar, mkBar, LIFE_LINE_MIN,
      List.getD_cons_zero, List.getD_cons_succ]
  refine ⟨hll, ?_⟩
  have h := C3_life_line_exit seriesC3 0 10 (by norm_num) (by norm_num [seriesC3])
    (fun e he1 he2 => by
      interval_cases e <;>
        norm_num [stopCondition, retPct, lowD, closeD, seriesC3, flatBar, mkBar,
          STOP_LOSS, List.getD_cons_zero, List.getD_cons_succ])
    (fun e he1 he2 => by
      interval_cases e <;>
        norm_num [trailCondition, peakPrice, retPct, highD, closeD, seriesC3,
          flatBar, mkBar, TRAILING_START, List.getD_cons_zero, List.getD_cons_succ])
    hll
  rw [h]
  norm_num [retPct, closeD, seriesC3, flatBar, mkBar,
    List.getD_cons_zero, List.getD_cons_succ]

/-- C4: if neither the stop-loss nor the trailing-stop condition holds on
any day of the holding window, `simulate_trade` expires the horizon and
computes the return from the close at `min(entry + horizon, length - 1)`
relative to the entry close. -/
theorem C4_horizon_expiry (s : List Bar) (start maxDays : ℕ)
    (hq : ∀ d, 1 ≤ d → d ≤ maxDays → start + d < s.length →
      ¬ stopCondition s start (closeD s start) d ∧
      ¬ trailCondition s start (closeD s start) d) :
    simulate_trade s start maxDays =
      (retPct (closeD s start) (closeD s (min (start + maxDays) (s.length - 1))),
        ExitReason.horizonExpired) := by
  have h := simLoop_expiry_spec s start maxDays (closeD s start) hq maxDays 1
    le_rfl (by omega)
  simpa [simulate_trade, peakPrice, expiryOutcome] using h

/-- Witness for C4: three flat bars at 10, horizon 3: the horizon expires
at `min(3, 2) = 2` with return 0. -/
theorem C4_horizon_expiry_witness :
    simulate_trade seriesC4 0 3 =
      (retPct (closeD seriesC4 0) (closeD seriesC4 (min (0 + 3) (seriesC4.length - 1))),
        ExitReason.horizonExpired) := by
  refine C4_horizon_expiry seriesC4 0 3 ?_
  intro d h1 h2 h3
  have hd : d < 3 := by simpa [seriesC4, flatBar, mkBar] using h3
  interval_cases d <;>
    exact ⟨by norm_num [stopCondition, retPct, lowD, closeD, seriesC4, flatBar,
        mkBar, STOP_LOSS, List.getD_cons_zero, List.getD_cons_succ],
      by norm_num [trailCondition, peakPrice, retPct, highD, closeD, seriesC4,
        flatBar, mkBar, TRAILING_START, List.getD_cons_zero, List.getD_cons_succ]⟩

/-- C5 counterexample: on seven strictly rising closes the 6-day average
loss at index 6 is 0 and the average gain is 1, yet the `rsi6` of
`backtest_stock_scanner_go.py` is `none` (its `replace(0, nan)` turns the
zero loss into `NaN`), not the sentinel 100 the claim states. -/
theorem C5_rsi_zero_loss_counterexample :
    rollingMean 6 (loss seriesC5) 6 = some 0 ∧
    rollingMean 6 (gain seriesC5) 6 = some 1 ∧
    Backtest.rsi6 seriesC5 6 = none ∧
    ¬ Backtest.rsi6 seriesC5 6 = some 100 := by
  have hl : rollingMean 6 (loss seriesC5) 6 = some 0 := by
    norm_num [rollingMean, rollingApply, window, allSome, loss, delta, close?,
      seriesC5, flatBar, mkBar, List.range_succ]
  have hg : rollingMean 6 (gain seriesC5) 6 = some 1 := by
    norm_num [rollingMean, rollingApply, window, allSome, gain, delta, close?,
      seriesC5, flatBar, mkBar, List.range_succ]
  have hn : Backtest.rsi6 seriesC5 6 = none := by
    unfold Backtest.rsi6
    rw [hl, hg]
    norm_num
  exact ⟨hl, hg, hn, by rw [hn]; exact fun hc => by cases hc⟩

/-- C5 amended: when the 6-day average loss is exactly zero and the
average gain is positive, the guarded RSI(6) of `stock_scanner_go.py` and
the unguarded float RSI(6) of `strategy_c_backtest.py` both yield the
sentinel 100, while the `rsi6` of `backtest_stock_scanner_go.py` yields
the undefined sentinel (`NaN`, modelled `none`) instead; none of the
three raises a division error. -/
theorem C5_rsi_zero_loss_amended (s : List Bar) (i : ℕ) (g : ℚ)
    (hl : rollingMean 6 (loss s) i = some 0)
    (hg : rollingMean 6 (gain s) i = some g) (hgpos : 0 < g) :
    Scanner.rsi6 s i = some 100 ∧ StrategyC.RSI6 s i = some 100 ∧
    Backtest.rsi6 s i = none := by
  refine ⟨?_, ?_, ?_⟩
  · unfold Scanner.rsi6
    rw [hl]
    norm_num
  · unfold StrategyC.RSI6
    rw [hl, hg]
    norm_num [ne_of_gt hgpos]
  · unfold Backtest.rsi6
    rw [hl, hg]
    norm_num

/-- Witness for the amended C5, on the rising-close series at index 5 —
the first index where the 6-day means are defined, reachable because the
`where` guard zeroes the row-0 diff `NaN`. -/
theorem C5_rsi_zero_loss_amended_witness :
    rollingMean 6 (loss seriesC5) 5 = some 0 ∧
    rollingMean 6 (gain seriesC5) 5 = some (5/6) ∧ (0 : ℚ) < 5/6 ∧
    (Scanner.rsi6 seriesC5 5 = some 100 ∧ StrategyC.RSI6 seriesC5 5 = some 100 ∧
      Backtest.rsi6 seriesC5 5 = none) := by
  have hl : rollingMean 6 (loss seriesC5) 5 = some 0 := by
    norm_num [rollingMean, rollingApply, window, allSome, loss, delta, close?,
      seriesC5, flatBar, mkBar, List.range_succ]
  have hg : rollingMean 6 (gain seriesC5) 5 = some (5/6) := by
    norm_num [rollingMean, rollingApply, window, allSome, gain, delta, close?,
      seriesC5, flatBar, mkBar, List.range_succ]
  exact ⟨hl, hg, by norm_num,
    C5_rsi_zero_loss_amended seriesC5 5 (5/6) hl hg (by norm_num)⟩

/-- C6: the entry predicate of `process_file` is false whenever any of its
input indicators (RSI6, KDJ-K, bias20, MA5, MA60, 30-day average
turnover, volume ratio) is undefined at the evaluated day — an undefined
indicator is never treated as a passing value. -/
theorem C6_undefined_fails_closed (s : List Bar) (i : ℕ)
    (h : rsi6 s i = none ∨ kdj_k s i = none ∨ bias20 s i = none ∨
      ma 5 s i = none ∨ ma 60 s i = none ∨ avg_turnover_30 s i = none ∨
      vol_ratio s i = none) :
    entrySignal s i = false := by
  rcases h with h | h | h | h | h | h | h
  · simp [entrySignal, oleB, h]
  · simp [entrySignal, oleB, h]
  · simp [entrySignal, obetweenB, h]
  · have hss : standStill s i = false := by
      unfold standStill
      rw [h]
      cases close? s i <;> rfl
    simp [entrySignal, hss]
  · have hpot : potential s i = none := by
      unfold potential
      rw [h]
    simp [entrySignal, ogeB, hpot]
  · simp [entrySignal, oleB, h]
  · simp [entrySignal, obetweenB, h]

/-- Witness for C6: on the empty series every indicator is undefined and
the predicate is false. -/
theorem C6_undefined_fails_closed_witness :
    rsi6 [] 0 = none ∧ entrySignal [] 0 = false := by
  have h : rsi6 [] 0 = none := rfl
  exact ⟨h, C6_undefined_fails_closed [] 0 (Or.inl h)⟩

/-- C7: every indicator of `calculate_indicators` at index `i` is
unchanged when the series is truncated to its first `i + 1` bars — no
indicator looks ahead of its own row. -/
theorem C7_truncation_invariance (s : List Bar) (i : ℕ) :
    rsi6 (s.take (i + 1)) i = rsi6 s i ∧
    kdj_k (s.take (i + 1)) i = kdj_k s i ∧
    ma 5 (s.take (i + 1)) i = ma 5 s i ∧
    ma 20 (s.take (i + 1)) i = ma 20 s i ∧
    ma 60 (s.take (i + 1)) i = ma 60 s i ∧
    bias20 (s.take (i + 1)) i = bias20 s i ∧
    avg_turnover_30 (s.take (i + 1)) i = avg_turnover_30 s i ∧
    vol_ratio (s.take (i + 1)) i = vol_ratio s i :=
  ⟨rsi6_take s i, kdj_k_take s i, ma_take 5 s i, ma_take 20 s i,
    ma_take 60 s i, bias20_take s i, avg_turnover_30_take s i,
    vol_ratio_take s i⟩

/-- C8: the 5-day volume moving average used by the volume ratio is taken
over the one-day-lagged volume series — at index `i` it is the mean of
the volumes of rows `i-5 .. i-1`, excluding row `i`'s own volume — and
wherever the volume ratio is defined it equals the current volume divided
by that lagged average. -/
theorem C8_lagged_volume_baseline (s : List Bar) (i : ℕ) (h5 : 5 ≤ i)
    (hlen : i < s.length) :
    vol_ma5 s i = some ((volD s (i - 5) + volD s (i - 4) + volD s (i - 3) +
      volD s (i - 2) + volD s (i - 1)) / 5) ∧
    ∀ r, vol_ratio s i = some r →
      ∃ m, vol_ma5 s i = some m ∧ m ≠ 0 ∧ r = volD s i / m := by
  obtain ⟨n, rfl⟩ : ∃ n, i = n + 5 := ⟨i - 5, by omega⟩
  have hw : window (shift1 (vol? s)) 5 (n + 5) =
      [vol? s n, vol? s (n + 1), vol? s (n + 2), vol? s (n + 3), vol? s (n + 4)] := rfl
  have h0 : vol? s n = some (volD s n) := vol?_eq_volD (by omega)
  have h1 : vol? s (n + 1) = some (volD s (n + 1)) := vol?_eq_volD (by omega)
  have h2 : vol? s (n + 2) = some (volD s (n + 2)) := vol?_eq_volD (by omega)
  have h3 : vol? s (n + 3) = some (volD s (n + 3)) := vol?_eq_volD (by omega)
  have h4 : vol? s (n + 4) = some (volD s (n + 4)) := vol?_eq_volD (by omega)
  have hma : vol_ma5 s (n + 5) = some ((volD s n + volD s (n + 1) + volD s (n + 2) +
      volD s (n + 3) + volD s (n + 4)) / 5) := by
    unfold vol_ma5 rollingMean rollingApply
    rw [if_pos (by omega), hw, h0, h1, h2, h3, h4]
    simp [allSome]
    ring
  constructor
  · have hix : n + 5 - 5 = n := by omega
    have hix1 : n + 5 - 4 = n + 1 := by omega
    have hix2 : n + 5 - 3 = n + 2 := by omega
    have hix3 : n + 5 - 2 = n + 3 := by omega
    have hix4 : n + 5 - 1 = n + 4 := by omega
    rw [hix, hix1, hix2, hix3, hix4]
    exact hma
  · intro r hr
    unfold vol_ratio at hr
    rw [vol?_eq_volD hlen, hma] at hr
    replace hr : (if (volD s n + volD s (n + 1) + volD s (n + 2) +
        volD s (n + 3) + volD s (n + 4)) / 5 = 0 then none
      else some (volD s (n + 5) / ((volD s n + volD s (n + 1) + volD s (n + 2) +
        volD s (n + 3) + volD s (n + 4)) / 5))) = some r := hr
    by_cases hz : (volD s n + volD s (n + 1) + volD s (n + 2) +
        volD s (n + 3) + volD s (n + 4)) / 5 = 0
    · rw [if_pos hz] at hr
      cases hr
    · rw [if_neg hz] at hr
      simp only [Option.some.injEq] at hr
      exact ⟨_, hma, hz, hr.symm⟩

/-- Witness for C8: six bars with volumes 1..6 at index 5: the lagged
average is `(1+2+3+4+5)/5 = 3` and the ratio is `6/3`. -/
theorem C8_lagged_volume_baseline_witness :
    (5 : ℕ) ≤ 5 ∧ 5 < seriesC8.length ∧
    (vol_ma5 seriesC8 5 = some ((volD seriesC8 0 + volD seriesC8 1 + volD seriesC8 2 +
        volD seriesC8 3 + volD seriesC8 4) / 5) ∧
      ∀ r, vol_ratio seriesC8 5 = some r →
        ∃ m, vol_ma5 seriesC8 5 = some m ∧ m ≠ 0 ∧ r = volD seriesC8 5 / m) := by
  refine ⟨le_rfl, by norm_num [seriesC8], ?_⟩
  exact C8_lagged_volume_baseline seriesC8 5 le_rfl (by norm_num [seriesC8])

/-- C9: on a series of genuine OHLC bars (low ≤ close ≤ high), every
defined RSI(6) and KDJ-K value lies in the closed interval `[0, 100]`. -/
theorem C9_rsi_kdj_in_range (s : List Bar) (i : ℕ) (q : ℚ)
    (hs : ValidSeries s) (h : rsi6 s i = some q ∨ kdj_k s i = some q) :
    0 ≤ q ∧ q ≤ 100 := by
  rcases h with h | h
  · unfold rsi6 at h
    cases hg : rollingMean 6 (gain s) i with
    | none =>
      rw [hg] at h
      cases hl : rollingMean 6 (loss s) i <;> rw [hl] at h <;> cases h
    | some g =>
      cases hl : rollingMean 6 (loss s) i with
      | none => rw [hg, hl] at h; cases h
      | some l =>
        rw [hg, hl] at h
        replace h : (if l = 0 then none
            else some (100 - 100 / (1 + g / l))) = some q := h
        by_cases hz : l = 0
        · rw [if_pos hz] at h; cases h
        · rw [if_neg hz] at h
          simp only [Option.some.injEq] at h
          subst h
          exact rsi_formula_bounds
            (rollingMean_nonneg (fun j v hv => gain_nonneg hv) hg)
            (rollingMean_nonneg (fun j v hv => loss_nonneg hv) hl) hz
  · unfold kdj_k at h
    exact ewmMean_bounds (rsv_bounds hs) h

/-- Witness for C9: alternating closes 10/11 give RSI(6) = 60 at index 5
(the earliest defined index, whose window includes the zeroed row-0
gain/loss) on a valid series. -/
theorem C9_rsi_kdj_in_range_witness :
    ValidSeries seriesC9 ∧ rsi6 seriesC9 5 = some 60 ∧
    (0 : ℚ) ≤ 60 ∧ (60 : ℚ) ≤ 100 := by
  have hv : ValidSeries seriesC9 := by
    intro b hb
    simp only [seriesC9, flatBar, mkBar, List.mem_cons, List.not_mem_nil,
      or_false] at hb
    rcases hb with rfl | rfl | rfl | rfl | rfl | rfl | rfl <;>
      exact ⟨le_rfl, le_rfl⟩
  have h60 : rsi6 seriesC9 5 = some 60 := by
    norm_num [rsi6, rollingMean, rollingApply, window, allSome, gain, loss,
      delta, close?, seriesC9, flatBar, mkBar, List.range_succ]
  have hb := C9_rsi_kdj_in_range seriesC9 5 60 hv (Or.inl h60)
  exact ⟨hv, h60, hb.1, hb.2⟩

/-- C10: every entry index recorded by `process_file` lies in
`[60, length - 21]`, so at least 20 bars follow it; consequently for each
configured holding period the horizon-expiry index `min(i + p, length-1)`
collapses to `i + p` and the expiry outcome reads the close exactly at
`i + p`. -/
theorem C10_signal_margin (s : List Bar) :
    (HOLD_PERIODS.all fun p => (entryIndices s).all fun i =>
      decide (60 ≤ i ∧ i + 20 < s.length ∧
        min (i + p) (s.length - 1) = i + p ∧
        expiryOutcome s i p (closeD s i) =
          (retPct (closeD s i) (closeD s (i + p)), ExitReason.horizonExpired))) = true := by
  rw [List.all_eq_true]
  intro p hp
  rw [List.all_eq_true]
  intro i hi
  rw [decide_eq_true_eq]
  unfold entryIndices at hi
  by_cases hlen : s.length < 100
  · rw [if_pos hlen] at hi
    cases hi
  · rw [if_neg hlen] at hi
    have hm := List.mem_filter.mp hi
    have hr := List.mem_range'.mp hm.1
    obtain ⟨k, hk1, hk2⟩ := hr
    have hp20 : p ≤ 20 := by
      have hp4 : p = 3 ∨ p = 5 ∨ p = 10 ∨ p = 20 := by
        simpa [HOLD_PERIODS] using hp
      rcases hp4 with rfl | rfl | rfl | rfl <;> norm_num
    have h60 : 60 ≤ i := by omega
    have h20 : i + 20 < s.length := by omega
    have hmin : min (i + p) (s.length - 1) = i + p := min_eq_left (by omega)
    refine ⟨h60, h20, hmin, ?_⟩
    unfold expiryOutcome
    rw [hmin]
